import Mathlib

/-!
Verification of `experiments/modelfree/highest_win_rate.py`.

Shallow embedding conventions:
* Python floats are modelled as `ℚ`; `np.mean([])` (NaN) is modelled as
  `none : Option ℚ`, a defined mean as `some q`.  The numpy/IEEE rule
  "NaN > x is False" is modelled by the comparison function `py_gt`.
* Python exceptions are modelled by `Except PyErr`; `PyErr` records only the
  exception class (messages are elided).  Per Python's builtin exception
  hierarchy, `KeyError` and `IndexError` are the subclasses of `LookupError`;
  `ValueError` and `TypeError` are not `LookupError`s.
* `os.path.sep` is `"/"` (POSIX).
* Python dicts are association lists with unique keys; `dict[k] = v` is
  `insertA`, `defaultdict` access is `updA`/`dd_get` (which *inserts* the
  default on a missing key, as Python's `defaultdict.__getitem__` does).
* The filesystem contents consumed by the script are supplied explicitly:
  each discovered event-log path carries its decoded event stream
  (`LogData.events`), and the sacred `config.json` files are a partial map
  from paths to parsed configs (`fs : String → Option RunConfig`).
-/

/-- Python exception classes raised by the script (messages elided). -/
inductive PyErr where
  | valueError
  | keyError
  | typeError
  | indexError
  | ioError
deriving DecidableEq

/-- Python's builtin exception hierarchy: `LookupError`'s subclasses are
exactly `IndexError` and `KeyError`. -/
def is_lookup_error : PyErr → Bool
  | .keyError => true
  | .indexError => true
  | _ => false

/-! ### Association-list primitives (Python `dict` semantics) -/

/-- `d[k]` lookup on a dict represented as an insertion-ordered assoc list. -/
def lookupA {K V : Type} [DecidableEq K] : List (K × V) → K → Option V
  | [], _ => none
  | (k, v) :: rest, q => if q = k then some v else lookupA rest q

/-- `d[k] = v`: overwrite in place, or append a new binding. -/
def insertA {K V : Type} [DecidableEq K] : List (K × V) → K → V → List (K × V)
  | [], q, v => [(q, v)]
  | (k, w) :: rest, q, v =>
    if q = k then (k, v) :: rest else (k, w) :: insertA rest q v

/-- `d.setdefault(q, dflt)` followed by mutating the stored value by `f`
(covers `defaultdict` accesses as well). -/
def updA {K V : Type} [DecidableEq K] : List (K × V) → K → V → (V → V) → List (K × V)
  | [], q, dflt, f => [(q, f dflt)]
  | (k, w) :: rest, q, dflt, f =>
    if q = k then (k, f w) :: rest else (k, w) :: updA rest q dflt f

/-- `defaultdict(float)` subscript access: returns the (possibly extended)
dict together with the value read; a missing key is *inserted* with `0.0`. -/
def dd_get (d : List ((String × Int × String) × ℚ)) (k : String × Int × String) :
    List ((String × Int × String) × ℚ) × ℚ :=
  match lookupA d k with
  | some v => (d, v)
  | none => (d ++ [(k, 0)], 0)

/-! ### Path manipulation (`os.path` on POSIX) -/

/-- `str.split(sep)` on character lists: split at every separator
occurrence, keeping empty segments (structurally recursive so that concrete
paths evaluate definitionally). -/
def split_chars (sep : Char) : List Char → List (List Char)
  | [] => [[]]
  | c :: rest =>
    if c = sep then [] :: split_chars sep rest
    else
      match split_chars sep rest with
      | [] => [[c]]
      | h :: t => (c :: h) :: t

/-- `path.split(os.path.sep)`. -/
def split_path (p : String) : List String :=
  (split_chars (Char.ofNat 47) p.data).map (fun l => ⟨l⟩)

/-- One step of `os.path.join`: a component starting with the separator
restarts the path; otherwise it is appended with a separator unless one is
already present. -/
def join2 (acc b : String) : String :=
  if b.data.head? = some (Char.ofNat 47) then b
  else if acc = "" ∨ acc.data.getLast? = some (Char.ofNat 47) then acc ++ b
  else acc ++ "/" ++ b

/-- `os.path.join(*parts)` for a non-empty argument list. -/
def py_path_join : List String → String
  | [] => ""
  | h :: t => t.foldl join2 h

/-- `_strip_up_to(path, dirname)` (lines 42-50): split the path, restore a
leading separator, locate the *rightmost* occurrence of `dirname`
(`list.index` on the reversed list raises `ValueError` when absent, caught
and re-raised as `ValueError`), and join everything strictly before it
(`os.path.join(*[])` would raise `TypeError`). -/
def strip_up_to (path dirname : String) : Except PyErr String :=
  let path_components := split_path path
  let path_components :=
    match path_components with
    | "" :: rest => "/" :: rest
    | l => l
  match path_components.reverse.findIdx? (fun c => c = dirname) with
  | none => .error .valueError
  | some i =>
    let path_index := path_components.length - 1 - i
    if path_index = 0 then .error .typeError
    else .ok (py_path_join (path_components.take path_index))

/-! ### Event streams and `get_stats` (lines 27-39) -/

/-- One decoded TF event: a step index and the named scalar summary values
it carries (`value.tag`, `value.simple_value`). -/
structure TfEvent where
  step : Int
  values : List (String × ℚ)
deriving DecidableEq

/-- The metric tags `get_stats` tracks. -/
def tracked_tags : List String := ["game_win0", "game_win1", "game_tie"]

/-- `defaultdict(list)`: `events[tag].append(x)`. -/
def dd_append (d : List (String × List ℚ)) (k : String) (x : ℚ) :
    List (String × List ℚ) :=
  updA d k [] (fun v => v ++ [x])

/-- The event-reading loop of `get_stats`: the nested
`for event ... for value in event.summary.value` loop appends each tracked
value, in emission order, to the per-tag list. -/
def record_events (evs : List TfEvent) : List (String × List ℚ) :=
  (evs.flatMap (fun e => e.values)).foldl
    (fun d pr => if pr.1 ∈ tracked_tags then dd_append d pr.1 pr.2 else d) []

/-- Python's `v[-w:]` for an `int` window `w`: the last `min (v.length) w`
elements when `w > 0`, the whole list when `w = 0`, and `v[(-w):]`
(dropping a front prefix) when `w < 0`. -/
def py_tail_slice (w : Int) (v : List ℚ) : List ℚ :=
  if 0 < w then v.drop (v.length - w.toNat) else v.drop (-w).toNat

/-- `np.mean`: NaN (`none`) on an empty list, else the arithmetic mean. -/
def mean_opt (v : List ℚ) : Option ℚ :=
  if v.isEmpty then none else some (v.sum / v.length)

/-- `get_stats(event_path, episode_window)` (lines 27-39), applied to the
decoded event stream of the file.  Note the diagnostic
`logger.info(f"Read {len(events['game_win0'])} ...")` *subscripts the
defaultdict*, inserting an empty `game_win0` entry when that tag was never
recorded; the means are computed afterwards. -/
def get_stats (evs : List TfEvent) (episode_window : Int) :
    List (String × Option ℚ) :=
  let events := record_events evs
  let events := updA events "game_win0" [] id
  events.map (fun p => (p.1, mean_opt (py_tail_slice episode_window p.2)))

/-! ### Run configurations and `get_sacred_config` (lines 53-57) -/

/-- The nested `load_policy` descriptor of a sacred config. -/
structure LoadPolicy where
  type : String
  path : String
deriving DecidableEq

/-- The fields of `sacred/train/1/config.json` that the script reads.
`load_policy` is optional in the JSON object; accessing it when absent
raises `KeyError`. -/
structure RunConfig where
  env_name : String
  victim_index : Int
  victim_type : String
  victim_path : String
  load_policy : Option LoadPolicy
deriving DecidableEq

/-- The path computed by `get_sacred_config` (lines 54-55):
`_strip_up_to(event_path, 'baselines')` joined with
`sacred/train/1/config.json`. -/
def sacred_config_path (event_path : String) : Except PyErr String := do
  let root ← strip_up_to event_path "baselines"
  .ok (py_path_join [root, "sacred", "train", "1", "config.json"])

/-- `get_sacred_config(event_path)` (lines 53-57): resolve the config path,
then read and parse the JSON file; `fs` maps config paths to their parsed
contents, `none` standing for a missing or unparsable file (`IOError` /
`JSONDecodeError`). -/
def get_sacred_config (fs : String → Option RunConfig) (event_path : String) :
    Except PyErr RunConfig := do
  let p ← sacred_config_path event_path
  match fs p with
  | none => .error .ioError
  | some c => .ok c

/-- `get_final_model_path(event_path)` (lines 60-69): everything strictly
before the rightmost `rl` segment, joined with `final_model`, then truncated
to start at the first `multi_train` segment when one is present
(`os.path.sep.join(components)` at the end). -/
def get_final_model_path (event_path : String) : Except PyErr String := do
  let root ← strip_up_to event_path "rl"
  let abs_path := py_path_join [root, "final_model"]
  let components := split_path abs_path
  let components :=
    match components.findIdx? (fun c => c = "multi_train") with
    | some i => components.drop i
    | none => components
  .ok (String.intercalate "/" components)

/-! ### The `find_best` fold (lines 81-115) -/

/-- Aggregation key `(env_name, opp_index, opp_path)`. -/
abbrev AggKey : Type := String × Int × String

/-- The mutable state of the loop in `find_best`: `best_policy = {}` and
`best_winrate = defaultdict(float)`. -/
structure FoldState where
  best_policy : List (AggKey × String)
  best_winrate : List (AggKey × ℚ)
deriving DecidableEq

/-- One event-log path together with its decoded event stream (the contents
`tf.train.summary_iterator` would yield for it). -/
structure LogData where
  path : String
  events : List TfEvent
deriving DecidableEq

/-- Lines 93-101: `zoo_path` selection.  The `and` short-circuits, so
`config['load_policy']` (a `KeyError` when absent) is only accessed when
`opp_type != 'zoo'`. -/
def resolve_zoo_path (config : RunConfig) : Except PyErr String :=
  if config.victim_type ≠ "zoo" then
    match config.load_policy with
    | none => .error .keyError
    | some lp => if lp.type = "zoo" then .ok lp.path else .ok config.victim_path
  else .ok config.victim_path

/-- The aggregation key computed for one log (lines 90-102). -/
def log_key (fs : String → Option RunConfig) (L : LogData) :
    Except PyErr AggKey := do
  let config ← get_sacred_config fs L.path
  let zoo_path ← resolve_zoo_path config
  .ok (config.env_name, config.victim_index, zoo_path)

/-- `stats[f'game_win{our_index}']` (lines 89, 102-104): the our-slot
win-rate mean, a `KeyError` when that tag is absent from the stats dict. -/
def log_winrate (fs : String → Option RunConfig) (episode_window : Int)
    (L : LogData) : Except PyErr (Option ℚ) := do
  let stats := get_stats L.events episode_window
  let config ← get_sacred_config fs L.path
  let our_index : Int := 1 - config.victim_index
  match lookupA stats ("game_win" ++ toString our_index) with
  | none => .error .keyError
  | some m => .ok m

/-- `our_winrate > best_winrate[key]` with `our_winrate` possibly NaN:
a NaN never satisfies the strict comparison. -/
def py_gt (m : Option ℚ) (cur : ℚ) : Bool :=
  match m with
  | none => false
  | some q => decide (cur < q)

/-- One iteration of the loop body of `find_best` (lines 88-108).  Note that
evaluating `best_winrate[key]` inserts the default `0.0` into the
`defaultdict` even when the comparison fails. -/
def process_log (fs : String → Option RunConfig) (episode_window : Int)
    (st : FoldState) (L : LogData) : Except PyErr FoldState := do
  let key ← log_key fs L
  let our_winrate ← log_winrate fs episode_window L
  let bwcur := dd_get st.best_winrate key
  match our_winrate with
  | none => .ok ⟨st.best_policy, bwcur.1⟩
  | some q =>
    if bwcur.2 < q then do
      let mp ← get_final_model_path L.path
      .ok ⟨insertA st.best_policy key mp, insertA bwcur.1 key q⟩
    else .ok ⟨st.best_policy, bwcur.1⟩

/-- The full fold of `find_best` over the discovered logs (the concatenated
`event_files` enumeration over all logdirs, each path paired with its event
stream). -/
def find_best_state (fs : String → Option RunConfig) (episode_window : Int)
    (logs : List LogData) : Except PyErr FoldState :=
  logs.foldlM (process_log fs episode_window) ⟨[], []⟩

/-- The win rate currently stored for a key, `0.0` when none is
(`defaultdict(float)` semantics). -/
def stored_winrate (st : FoldState) (k : AggKey) : ℚ :=
  (lookupA st.best_winrate k).getD 0

/-! ### `unstack` (lines 72-78) and the result document -/

/-- Python `<` on the `(str, int, str)` key tuples of the best-record dicts
(lexicographic tuple comparison; made reflexive-total with `≤` on the last
component so it can drive a sort). -/
def key_le_b (a b : AggKey) : Bool :=
  if a.1 ≠ b.1 then a.1 < b.1
  else if a.2.1 ≠ b.2.1 then a.2.1 < b.2.1
  else a.2.2 ≤ b.2.2

/-- `unstack(d)` (lines 72-78): sort the items by key, then build the nested
`res.setdefault(env, {}).setdefault(idx, {})[path] = v` structure in sorted
order (`OrderedDict` ≅ insertion-ordered assoc list). -/
def unstack {V : Type} (d : List (AggKey × V)) :
    List (String × List (Int × List (String × V))) :=
  let sorted := d.insertionSort (fun a b => key_le_b a.1 b.1 = true)
  sorted.foldl
    (fun res kv =>
      updA res kv.1.1 []
        (fun m2 => updA m2 kv.1.2.1 []
          (fun m3 => insertA m3 kv.1.2.2 kv.2))) []

/-- The persisted artifact: `{'policies': ..., 'winrates': ...}`
(lines 110-113), prior to JSON serialization. -/
structure ResultDocument where
  policies : List (String × List (Int × List (String × String)))
  winrates : List (String × List (Int × List (String × ℚ)))

/-- `find_best(logdirs, episode_window)` (lines 81-115): fold all logs, then
unstack both best-record maps. -/
def find_best (fs : String → Option RunConfig) (episode_window : Int)
    (logs : List LogData) : Except PyErr ResultDocument := do
  let st ← find_best_state fs episode_window logs
  .ok ⟨unstack st.best_policy, unstack st.best_winrate⟩

/-- Leaf access in a nested three-level result structure: the leaf stored
for `(environment, opponent slot index, opponent identity path)`. -/
def lookup3 {V : Type} (res : List (String × List (Int × List (String × V))))
    (e : String) (i : Int) (p : String) : Option V := do
  let m2 ← lookupA res e
  let m3 ← lookupA m2 i
  lookupA m3 p

/-! ### `event_files` (lines 17-24) -/

/-- A directory tree: plain file names plus named subdirectories. -/
inductive FSTree where
  | dir (files : List String) (subdirs : List (String × FSTree))

/-- `'tfevents' in name`: substring containment on the character lists. -/
def str_contains (s pat : String) : Bool :=
  go s.data
where
  go : List Char → Bool
    | [] => pat.data.isEmpty
    | l@(_ :: rest) => pat.data.isPrefixOf l || go rest

/-- `root.split(os.path.sep)[-2:]` on an already-split root. -/
def last_two (l : List String) : List String := l.drop (l.length - 2)

mutual
/-- `event_files(path)` (lines 17-24) over an explicit tree: `os.walk`
top-down; `dirs[:] = filter(lambda x: x != 'checkpoint', dirs)` prunes
checkpoint subtrees before descending; a visited root contributes its
`tfevents`-named files when its segment sequence ends in `['rl', 'tb']`.
Yields `(directory segments, file name)` pairs. -/
def event_files (root : List String) : FSTree → List (List String × String)
  | .dir files subdirs =>
    (if last_two root = ["rl", "tb"] then
      (files.filter (fun n => str_contains n "tfevents")).map (fun n => (root, n))
    else []) ++ event_files_list root subdirs

/-- The walk over the (pruned) subdirectory list, in order. -/
def event_files_list (root : List String) :
    List (String × FSTree) → List (List String × String)
  | [] => []
  | (s, d) :: rest =>
    (if s = "checkpoint" then [] else event_files (root ++ [s]) d) ++
      event_files_list root rest
end

mutual
/-- The tree contains file `n` in the directory reached by descending along
`rels` from the root. -/
def has_file_at : FSTree → List String → String → Bool
  | .dir files _, [], n => files.contains n
  | .dir _ subdirs, s :: rest, n => has_file_at_list subdirs s rest n

/-- Helper: some subdirectory named `s` contains `n` at `rels`. -/
def has_file_at_list : List (String × FSTree) → String → List String → String → Bool
  | [], _, _, _ => false
  | (s', d) :: others, s, rest, n =>
    (s' = s && has_file_at d rest n) || has_file_at_list others s rest n
end

/-! ### The driver `main` (lines 125-151) -/

/-- The fixed default output file name (line 140). -/
def default_output_name : String := "highest_win_policies_and_rates.json"

/-- Lines 135-140: resolve the output path.  With no `--output_path`,
multiple logdirs raise `ValueError`; otherwise the default name is joined
onto the single logdir (`parsed_args.logdir[0]`, an `IndexError` on an empty
list, which `argparse` with `nargs='+'` prevents). -/
def resolve_output_path (output_path : Option String) (logdirs : List String) :
    Except PyErr String :=
  match output_path with
  | some p => .ok p
  | none =>
    if 1 < logdirs.length then .error .valueError
    else
      match logdirs with
      | [] => .error .indexError
      | d :: _ => .ok (py_path_join [d, default_output_name])

/-- `main()` (lines 131-151) after argument parsing: resolve the output
path, then scan and aggregate (`corpus` stands for the logs the directory
scan of the given logdirs would discover), returning the output path and
the document written to it. -/
def main_model (fs : String → Option RunConfig) (output_path : Option String)
    (logdirs : List String) (episode_window : Int) (corpus : List LogData) :
    Except PyErr (String × ResultDocument) := do
  let out ← resolve_output_path output_path logdirs
  let res ← find_best fs episode_window corpus
  .ok (out, res)

/-- The keys of an association list. -/
def keysOf {K V : Type} (d : List (K × V)) : List K := d.map Prod.fst

/-! ### Lemmas about `get_stats` -/

/-- The values recorded for metric `t` across the event stream, in emission
order. -/
def metric_values (evs : List TfEvent) (t : String) : List ℚ :=
  ((evs.flatMap (fun e => e.values)).filter (fun pr => pr.1 = t)).map Prod.snd

/-- The window the spec describes: the last `min N W` recorded values. -/
def spec_window (w : Int) (v : List ℚ) : List ℚ :=
  v.drop (v.length - min v.length w.toNat)

/-! ### Claim C3: degenerate statistics and the downstream fold -/

/-- A run config whose event log will be degenerate (no events at all). -/
def c3_cfg : RunConfig := ⟨"Env1", 0, "zoo", "zoo/1", none⟩

/-- The sacred-config filesystem for the C3 scenario. -/
def c3_fs : String → Option RunConfig := fun p =>
  if p = "/mt/sacred/train/1/config.json" then some c3_cfg else none

/-- An event log with zero recorded values for every tracked metric. -/
def c3_log : LogData := ⟨"/mt/baselines/exp/rl/tb/events.tfevents.2", []⟩

/-! ### Claim C4: windowed means -/

/-- A log with one recorded `game_win0` value. -/
def c4_events : List TfEvent := [⟨0, [("game_win0", 1)]⟩]

/-! ### Claim C5: opponent-identity resolution -/

/-- A config with a non-zoo opponent and no load-policy descriptor. -/
def c5_cfg : RunConfig := ⟨"EnvX", 0, "ppo", "victims/agent1", none⟩

/-- A config (opponent in slot 1) for the C6 witness scenario. -/
def c6_cfg : RunConfig := ⟨"Env1", 1, "zoo", "zoo/1", none⟩

/-- Sacred-config filesystem for the C6 witness. -/
def c6_fs : String → Option RunConfig := fun p =>
  if p = "/mt6/sacred/train/1/config.json" then some c6_cfg else none

/-- A degenerate log (NaN win rate) for the C6 witness. -/
def c6_log : LogData := ⟨"/mt6/baselines/exp/rl/tb/ev.tfevents.1", []⟩

/-- The aggregation key of the C6 witness log. -/
def c6_key : AggKey := ("Env1", 1, "zoo/1")

/-! ### The fold invariant behind claim C1 -/

/-- Invariant of the loop state: keys are unique in both dicts; a policy
record implies a positive stored win rate, and a stored win rate is
non-negative, positive exactly when a policy record exists. -/
def BestInv (st : FoldState) : Prop :=
  (keysOf st.best_policy).Nodup ∧ (keysOf st.best_winrate).Nodup ∧
  ∀ k : AggKey,
    ((lookupA st.best_policy k).isSome → (lookupA st.best_winrate k).isSome) ∧
    (∀ q, lookupA st.best_winrate k = some q →
      0 ≤ q ∧ ((lookupA st.best_policy k).isSome ↔ 0 < q))

/-! ### Claim C1: parallelism of the persisted structures -/

/-- Config for the C1 counterexample (opponent in slot 1, so the our-slot
metric is `game_win0`, which is always present in the stats). -/
def c1_cfg : RunConfig := ⟨"Env1", 1, "zoo", "zoo/1", none⟩

/-- Sacred-config filesystem for the C1 counterexample. -/
def c1_fs : String → Option RunConfig := fun p =>
  if p = "/mt1/sacred/train/1/config.json" then some c1_cfg else none

/-- A log whose our-slot win rate is NaN: the `defaultdict` access
`best_winrate[key]` inserts `0.0` while the comparison fails, so only the
winrates structure gains a leaf. -/
def c1_log : LogData := ⟨"/mt1/baselines/exp/rl/tb/ev.tfevents.1", []⟩

/-- A tree whose `checkpoint` subtree contains a correctly-named event-log
file inside an `rl/tb` directory. -/
def c8_tree : FSTree :=
  .dir [] [("checkpoint",
    .dir [] [("rl", .dir [] [("tb", .dir ["ev.tfevents.1"] [])])])]

/-- A small tree with an unpruned `rl/tb` directory for the C8 witness. -/
def c8_good_tree : FSTree :=
  .dir [] [("rl", .dir [] [("tb", .dir ["a.tfevents", "notes.txt"] [])])]

/-- The shared config of the C7 witness scenario. -/
def c7_cfg : RunConfig := ⟨"Env1", 0, "zoo", "zoo/3", none⟩

/-- Sacred-config filesystem for the C7 witness (two runs, same matchup). -/
def c7_fs : String → Option RunConfig := fun p =>
  if p = "/multi_train/a/sacred/train/1/config.json" then some c7_cfg
  else if p = "/multi_train/b/sacred/train/1/config.json" then some c7_cfg
  else none

/-- Log A: our-slot win rate 0.62. -/
def c7_logA : LogData :=
  ⟨"/multi_train/a/baselines/e/rl/tb/x.tfevents.1",
   [⟨0, [("game_win1", 62 / 100)]⟩]⟩

/-- Log B: our-slot win rate 0.71. -/
def c7_logB : LogData :=
  ⟨"/multi_train/b/baselines/e/rl/tb/x.tfevents.1",
   [⟨0, [("game_win1", 71 / 100)]⟩]⟩

/-- The win rate the pipeline computes for log A (mean of one value). -/
def c7_q1 : ℚ := List.sum [(62 : ℚ) / 100] / ((1 : Nat) : ℚ)

/-- The win rate the pipeline computes for log B (mean of one value). -/
def c7_q2 : ℚ := List.sum [(71 : ℚ) / 100] / ((1 : Nat) : ℚ)

/-! ### Lemmas and claim theorems -/

/-! ### Helper lemmas: association lists and `Except` -/

@[simp] theorem except_bind_ok {α β : Type} (a : α) (f : α → Except PyErr β) :
    (Except.ok a >>= f) = f a := rfl

@[simp] theorem except_bind_err {α β : Type} (e : PyErr) (f : α → Except PyErr β) :
    (Except.error e >>= f : Except PyErr β) = Except.error e := rfl

theorem lookupA_updA {K V : Type} [DecidableEq K] (d : List (K × V)) (q : K)
    (dflt : V) (f : V → V) (r : K) :
    lookupA (updA d q dflt f) r =
      if r = q then some (f ((lookupA d q).getD dflt)) else lookupA d r := by
  induction d with
  | nil => by_cases h : r = q <;> simp [updA, lookupA, h]
  | cons kv rest ih =>
    obtain ⟨k, w⟩ := kv
    by_cases hq : q = k
    · subst hq
      by_cases hr : r = q <;> simp [updA, lookupA, hr]
    · by_cases hr : r = k
      · subst hr
        simp [updA, lookupA, hq, Ne.symm hq]
      · simp [updA, lookupA, hq, hr, ih]

theorem lookupA_insertA {K V : Type} [DecidableEq K] (d : List (K × V)) (q : K)
    (v : V) (r : K) :
    lookupA (insertA d q v) r = if r = q then some v else lookupA d r := by
  induction d with
  | nil => by_cases h : r = q <;> simp [insertA, lookupA, h]
  | cons kv rest ih =>
    obtain ⟨k, w⟩ := kv
    by_cases hq : q = k
    · subst hq
      by_cases hr : r = q <;> simp [insertA, lookupA, hr]
    · by_cases hr : r = k
      · subst hr
        simp [insertA, lookupA, hq, Ne.symm hq]
      · simp [insertA, lookupA, hq, hr, ih]

theorem lookupA_append {K V : Type} [DecidableEq K] (d₁ d₂ : List (K × V)) (r : K) :
    lookupA (d₁ ++ d₂) r = ((lookupA d₁ r).rec (lookupA d₂ r) (fun v => some v)) := by
  induction d₁ with
  | nil => simp [lookupA]
  | cons kv rest ih =>
    obtain ⟨k, w⟩ := kv
    by_cases hr : r = k <;> simp [lookupA, hr, ih]

theorem lookupA_map_snd {K V W : Type} [DecidableEq K] (d : List (K × V))
    (g : K → V → W) (r : K) :
    lookupA (d.map (fun p => (p.1, g p.1 p.2))) r = (lookupA d r).map (g r) := by
  induction d with
  | nil => simp [lookupA]
  | cons kv rest ih =>
    obtain ⟨k, w⟩ := kv
    by_cases hr : r = k
    · subst hr
      simp [lookupA]
    · simp [lookupA, hr, ih]

theorem lookupA_eq_none_iff {K V : Type} [DecidableEq K] (d : List (K × V)) (r : K) :
    lookupA d r = none ↔ r ∉ keysOf d := by
  induction d with
  | nil => simp [lookupA, keysOf]
  | cons kv rest ih =>
    obtain ⟨k, w⟩ := kv
    by_cases hr : r = k <;> simp [lookupA, keysOf, hr, ih]

theorem lookupA_of_mem_nodup {K V : Type} [DecidableEq K] {d : List (K × V)}
    (hd : (keysOf d).Nodup) {k : K} {v : V} (hm : (k, v) ∈ d) :
    lookupA d k = some v := by
  induction d with
  | nil => simp at hm
  | cons kv rest ih =>
    obtain ⟨k', w⟩ := kv
    simp only [keysOf, List.map_cons, List.nodup_cons] at hd
    rcases List.mem_cons.mp hm with h | h
    · cases h
      simp [lookupA]
    · have hk : k ≠ k' := by
        rintro rfl
        exact hd.1 (List.mem_map.mpr ⟨(k, v), h, rfl⟩)
      simp [lookupA, hk, ih hd.2 h]

theorem mem_of_lookupA {K V : Type} [DecidableEq K] {d : List (K × V)} {k : K}
    {v : V} (h : lookupA d k = some v) : (k, v) ∈ d := by
  induction d with
  | nil => simp [lookupA] at h
  | cons kv rest ih =>
    obtain ⟨k', w⟩ := kv
    by_cases hk : k = k'
    · subst hk
      simp [lookupA] at h
      simp [h]
    · simp [lookupA, hk] at h
      simp [ih h]

/-- Under unique keys, lookup is permutation-invariant. -/
theorem lookupA_perm {K V : Type} [DecidableEq K] {d d' : List (K × V)}
    (hp : d.Perm d') (hd : (keysOf d).Nodup) (k : K) :
    lookupA d k = lookupA d' k := by
  have hd' : (keysOf d').Nodup := (hp.map Prod.fst).nodup_iff.mp hd
  cases h : lookupA d k with
  | none =>
    cases h' : lookupA d' k with
    | none => rfl
    | some v =>
      exact absurd ((lookupA_eq_none_iff d k).mp h)
        (fun hn => hn (by
          have := hp.symm.subset (mem_of_lookupA h')
          exact List.mem_map.mpr ⟨(k, v), this, rfl⟩))
  | some v =>
    exact (lookupA_of_mem_nodup hd' (hp.subset (mem_of_lookupA h))).symm

theorem record_events_aux (t : String) (ht : t ∈ tracked_tags) :
    ∀ (ps : List (String × ℚ)) (d : List (String × List ℚ)),
      lookupA (ps.foldl
        (fun d pr => if pr.1 ∈ tracked_tags then dd_append d pr.1 pr.2 else d) d) t =
      (match lookupA d t with
       | some v => some (v ++ ((ps.filter (fun pr => pr.1 = t)).map Prod.snd))
       | none =>
         if ((ps.filter (fun pr => pr.1 = t)).map Prod.snd) = [] then none
         else some ((ps.filter (fun pr => pr.1 = t)).map Prod.snd)) := by
  intro ps
  induction ps with
  | nil =>
    intro d
    cases h : lookupA d t <;> simp [h]
  | cons pr rest ih =>
    intro d
    obtain ⟨s, x⟩ := pr
    simp only [List.foldl_cons]
    rw [ih]
    by_cases hs : s = t
    · subst hs
      have hstep : lookupA (if (s, x).1 ∈ tracked_tags then
          dd_append d (s, x).1 (s, x).2 else d) s =
          some (((lookupA d s).getD []) ++ [x]) := by
        simp [ht, dd_append, lookupA_updA]
      rw [hstep]
      cases h : lookupA d s <;> simp [h, List.filter_cons]
    · have hstep : lookupA (if (s, x).1 ∈ tracked_tags then
          dd_append d (s, x).1 (s, x).2 else d) t = lookupA d t := by
        by_cases hm : s ∈ tracked_tags
        · simp only [hm, if_pos, dd_append]
          rw [lookupA_updA, if_neg (fun h : t = s => hs h.symm)]
        · simp [hm]
      rw [hstep]
      have hf : (((s, x) :: rest).filter (fun pr => pr.1 = t)) =
          (rest.filter (fun pr => pr.1 = t)) := by
        simp [List.filter_cons, hs]
      rw [hf]

/-- `record_events` lookup in terms of the emission-order value list. -/
theorem record_events_lookup (evs : List TfEvent) (t : String)
    (ht : t ∈ tracked_tags) :
    lookupA (record_events evs) t =
      if metric_values evs t = [] then none else some (metric_values evs t) := by
  have := record_events_aux t ht (evs.flatMap (fun e => e.values)) []
  simpa [record_events, metric_values, lookupA] using this

/-- `get_stats` lookup: the touched dict mapped through the windowed mean. -/
theorem get_stats_lookup (evs : List TfEvent) (w : Int) (t : String) :
    lookupA (get_stats evs w) t =
      (lookupA (updA (record_events evs) "game_win0" [] id) t).map
        (fun v => mean_opt (py_tail_slice w v)) := by
  simpa [get_stats] using
    lookupA_map_snd (updA (record_events evs) "game_win0" [] id)
      (fun _ v => mean_opt (py_tail_slice w v)) t

theorem touched_lookup_win0 (evs : List TfEvent) :
    lookupA (updA (record_events evs) "game_win0" [] id) "game_win0" =
      some (metric_values evs "game_win0") := by
  have h := record_events_lookup evs "game_win0" (by decide)
  rw [lookupA_updA, if_pos rfl, h]
  by_cases hmv : metric_values evs "game_win0" = [] <;> simp [hmv]

theorem touched_lookup_ne (evs : List TfEvent) (t : String) (h : t ≠ "game_win0") :
    lookupA (updA (record_events evs) "game_win0" [] id) t =
      lookupA (record_events evs) t := by
  rw [lookupA_updA, if_neg h]

theorem py_tail_slice_nil (w : Int) : py_tail_slice w [] = [] := by
  unfold py_tail_slice
  split <;> simp

theorem py_tail_slice_pos (w : Int) (hw : 1 ≤ w) (v : List ℚ) :
    py_tail_slice w v = spec_window w v := by
  unfold py_tail_slice spec_window
  rw [if_pos (by omega)]
  congr 1
  omega

theorem spec_window_ne_nil (w : Int) (hw : 1 ≤ w) (v : List ℚ) (hv : v ≠ []) :
    spec_window w v ≠ [] := by
  unfold spec_window
  intro h
  have hlen := congrArg List.length h
  simp only [List.length_drop, List.length_nil] at hlen
  have hv1 : 1 ≤ v.length := List.length_pos.mpr hv
  have hw1 : 1 ≤ w.toNat := by omega
  omega

/-- Claim C10: the stats mapping returned by `get_stats` always contains the
key `game_win0` (with a NaN mean when that metric has zero recorded values),
while `game_win1` and `game_tie` are present exactly when at least one value
was recorded for them — the asymmetry caused by the diagnostic logging
expression subscripting the `events` defaultdict at `game_win0` before the
means are computed. -/
theorem claim_C10 (evs : List TfEvent) (w : Int) :
    ((lookupA (get_stats evs w) "game_win0").isSome = true) ∧
    ((lookupA (get_stats evs w) "game_win1").isSome = true ↔
      metric_values evs "game_win1" ≠ []) ∧
    ((lookupA (get_stats evs w) "game_tie").isSome = true ↔
      metric_values evs "game_tie" ≠ []) ∧
    (metric_values evs "game_win0" = [] →
      lookupA (get_stats evs w) "game_win0" = some none) := by
  refine ⟨?_, ?_, ?_, ?_⟩
  · rw [get_stats_lookup, touched_lookup_win0]
    rfl
  · rw [get_stats_lookup, touched_lookup_ne evs _ (by decide),
        record_events_lookup evs _ (by decide)]
    by_cases hmv : metric_values evs "game_win1" = [] <;> simp [hmv]
  · rw [get_stats_lookup, touched_lookup_ne evs _ (by decide),
        record_events_lookup evs _ (by decide)]
    by_cases hmv : metric_values evs "game_tie" = [] <;> simp [hmv]
  · intro hmv
    rw [get_stats_lookup, touched_lookup_win0, hmv]
    simp [py_tail_slice_nil, mean_opt]

/-- Witness for C10 at a concrete degenerate log. -/
theorem claim_C10_witness :
    lookupA (get_stats [] 50) "game_win0" = some none :=
  (claim_C10 [] 50).2.2.2 rfl

/-- Claim C3 is false as stated: an event log in which the tracked metric
`game_win1` has zero recorded values makes the fold raise a `KeyError`
(the our-slot lookup `stats['game_win1']`), because that key is absent from
the stats mapping. -/
theorem claim_C3_counterexample :
    process_log c3_fs 50 ⟨[], []⟩ c3_log = .error .keyError := by
  rfl

/-- Claim C3 amended: a zero-recorded `game_win0` still yields a NaN-like
mean rather than an error, and a NaN never makes the fold select the log;
but when the our-slot metric is `game_win1` with zero recorded values, the
stats lookup raises a `KeyError` (which propagates) instead of completing. -/
theorem claim_C3_amended :
    (∀ (evs : List TfEvent) (w : Int), metric_values evs "game_win0" = [] →
      lookupA (get_stats evs w) "game_win0" = some none) ∧
    (∀ (fs : String → Option RunConfig) (w : Int) (st st' : FoldState)
       (L : LogData), log_winrate fs w L = .ok none →
       process_log fs w st L = .ok st' → st'.best_policy = st.best_policy) ∧
    (∀ (fs : String → Option RunConfig) (w : Int) (L : LogData)
       (cfg : RunConfig), get_sacred_config fs L.path = .ok cfg →
       cfg.victim_index = 0 → metric_values L.events "game_win1" = [] →
       log_winrate fs w L = .error .keyError) := by
  refine ⟨?_, ?_, ?_⟩
  · intro evs w hmv
    rw [get_stats_lookup, touched_lookup_win0, hmv]
    simp [py_tail_slice_nil, mean_opt]
  · intro fs w st st' L hw hp
    unfold process_log at hp
    cases hk : log_key fs L with
    | error e => rw [hk] at hp; simp at hp
    | ok k =>
      rw [hk, except_bind_ok, hw, except_bind_ok] at hp
      cases hp
      rfl
  · intro fs w L cfg hcfg hidx hmv
    have hnone : lookupA (get_stats L.events w) "game_win1" = none := by
      rw [get_stats_lookup, touched_lookup_ne _ _ (by decide),
          record_events_lookup _ _ (by decide), hmv]
      rfl
    unfold log_winrate
    rw [hcfg, except_bind_ok]
    show (match lookupA (get_stats L.events w)
        ("game_win" ++ toString (1 - cfg.victim_index)) with
      | none => Except.error PyErr.keyError
      | some m => Except.ok m) = Except.error PyErr.keyError
    rw [hidx, show ("game_win" ++ toString (1 - (0 : Int))) = "game_win1" from rfl,
        hnone]

/-- Witness for the amended C3 at concrete degenerate inputs. -/
theorem claim_C3_witness :
    lookupA (get_stats ([] : List TfEvent) 50) "game_win0" = some none ∧
    log_winrate c3_fs 50 c3_log = .error .keyError := by
  constructor
  · exact claim_C3_amended.1 [] 50 rfl
  · exact claim_C3_amended.2.2 c3_fs 50 c3_log c3_cfg rfl rfl rfl

/-- Claim C4 is false as stated for window size `W = 0`: with one recorded
value, `v[-0:]` is the whole list, so the code reports the mean of all
values (`1`), while the mean of the last `min(N, 0) = 0` values claimed by
the spec would be NaN-like. -/
theorem claim_C4_counterexample :
    lookupA (get_stats c4_events 0) "game_win0" = some (some 1) ∧
    mean_opt (spec_window 0 (metric_values c4_events "game_win0")) = none := by
  constructor
  · rw [get_stats_lookup, touched_lookup_win0]
    have hmv : metric_values c4_events "game_win0" = [1] := rfl
    rw [hmv]
    simp [mean_opt, py_tail_slice]
  · rfl

/-- Claim C4 amended: for every window size `W ≥ 1` and `N ≥ 1` recorded
values, the reported mean is the arithmetic mean of the last `min(N, W)`
values in emission order; for `N = 0` the mean is NaN-like for `game_win0`
(the only tag guaranteed to be present) and a NaN never satisfies the
strictly-greater comparison used by the aggregator. -/
theorem claim_C4_amended (evs : List TfEvent) (w : Int) (t : String)
    (ht : t ∈ tracked_tags) (hw : 1 ≤ w) :
    (metric_values evs t ≠ [] →
      lookupA (get_stats evs w) t =
        some (some ((spec_window w (metric_values evs t)).sum /
          ((spec_window w (metric_values evs t)).length : ℚ)))) ∧
    (metric_values evs "game_win0" = [] →
      lookupA (get_stats evs w) "game_win0" = some none ∧
      ∀ b : ℚ, py_gt none b = false) := by
  constructor
  · intro hmv
    have hmean : mean_opt (py_tail_slice w (metric_values evs t)) =
        some ((spec_window w (metric_values evs t)).sum /
          ((spec_window w (metric_values evs t)).length : ℚ)) := by
      rw [py_tail_slice_pos w hw, mean_opt,
          if_neg (by simpa using spec_window_ne_nil w hw _ hmv)]
    by_cases h0 : t = "game_win0"
    · subst h0
      rw [get_stats_lookup, touched_lookup_win0]
      simp [hmean]
    · rw [get_stats_lookup, touched_lookup_ne _ _ h0,
          record_events_lookup _ _ ht, if_neg hmv]
      simp [hmean]
  · intro hmv
    refine ⟨?_, fun b => rfl⟩
    rw [get_stats_lookup, touched_lookup_win0, hmv]
    simp [py_tail_slice_nil, mean_opt]

/-- Witness for the amended C4 at a concrete log and window. -/
theorem claim_C4_witness :
    lookupA (get_stats c4_events 50) "game_win0" =
      some (some ((spec_window 50 (metric_values c4_events "game_win0")).sum /
        ((spec_window 50 (metric_values c4_events "game_win0")).length : ℚ))) :=
  (claim_C4_amended c4_events 50 "game_win0" (by decide) (by decide)).1
    (by decide)

/-- Claim C5 is false as stated: for a run config whose opponent type is not
`zoo` and which carries no load-policy descriptor, the code raises a
`KeyError` on `config['load_policy']` instead of resolving the opponent
identity to the run's victim path. -/
theorem claim_C5_counterexample :
    resolve_zoo_path c5_cfg = .error .keyError ∧
    resolve_zoo_path c5_cfg ≠ .ok c5_cfg.victim_path := by
  refine ⟨rfl, ?_⟩
  intro h
  rw [show resolve_zoo_path c5_cfg = .error .keyError from rfl] at h
  exact Except.noConfusion h

/-- Claim C5 amended: with the opponent type not `zoo` and a load-policy
descriptor of type `zoo` with path `P` present, the opponent identity is
`P`; with the opponent type `zoo` the identity is the run's victim path
regardless of any descriptor; with a non-zoo opponent and a present non-zoo
descriptor the identity is the victim path; with a non-zoo opponent and no
descriptor present, resolution raises a `KeyError`. -/
theorem claim_C5_amended (cfg : RunConfig) :
    (cfg.victim_type = "zoo" → resolve_zoo_path cfg = .ok cfg.victim_path) ∧
    (cfg.victim_type ≠ "zoo" →
      (∀ lp : LoadPolicy, cfg.load_policy = some lp → lp.type = "zoo" →
        resolve_zoo_path cfg = .ok lp.path) ∧
      (∀ lp : LoadPolicy, cfg.load_policy = some lp → lp.type ≠ "zoo" →
        resolve_zoo_path cfg = .ok cfg.victim_path) ∧
      (cfg.load_policy = none → resolve_zoo_path cfg = .error .keyError)) := by
  refine ⟨?_, ?_⟩
  · intro h
    unfold resolve_zoo_path
    rw [if_neg (by simp [h])]
  · intro h
    refine ⟨?_, ?_, ?_⟩
    · intro lp hlp hzoo
      unfold resolve_zoo_path
      rw [if_pos h, hlp]
      simp [hzoo]
    · intro lp hlp hzoo
      unfold resolve_zoo_path
      rw [if_pos h, hlp]
      simp [hzoo]
    · intro hlp
      unfold resolve_zoo_path
      rw [if_pos h, hlp]

/-- Witness for the amended C5 at concrete configs. -/
theorem claim_C5_witness :
    resolve_zoo_path ⟨"E", 0, "zoo", "v", some ⟨"zoo", "z9"⟩⟩ = .ok "v" ∧
    resolve_zoo_path ⟨"E", 0, "ppo", "v", some ⟨"zoo", "z9"⟩⟩ = .ok "z9" := by
  constructor
  · exact (claim_C5_amended _).1 rfl
  · exact ((claim_C5_amended _).2 (by decide)).1 ⟨"zoo", "z9"⟩ rfl rfl

/-! ### Claim C2: missing anchor segment -/

theorem strip_up_to_error_of_not_mem (path dirname : String)
    (h : dirname ∉ split_path path) (hsep : dirname ≠ "/") :
    strip_up_to path dirname = .error .valueError := by
  unfold strip_up_to
  have hnone :
      ((match split_path path with
        | "" :: rest => "/" :: rest
        | l => l).reverse.findIdx? (fun c => c = dirname)) = none := by
    rw [List.findIdx?_eq_none_iff]
    intro x hx
    rw [List.mem_reverse] at hx
    simp only [decide_eq_false_iff_not]
    intro heq
    subst heq
    cases hsp : split_path path with
    | nil => rw [hsp] at hx; simp at hx
    | cons h0 rest =>
      rw [hsp] at hx h
      by_cases h0e : h0 = ""
      · subst h0e
        simp only [] at hx
        rcases List.mem_cons.mp hx with h1 | h1
        · exact hsep h1
        · exact h (List.mem_cons.mpr (Or.inr h1))
      · have : (match ("" :: rest : List String) with
            | "" :: rest => "/" :: rest
            | l => l) = "/" :: rest := rfl
        rw [show (match (h0 :: rest : List String) with
            | "" :: rest => "/" :: rest
            | l => l) = h0 :: rest from by
          cases rest <;> simp [h0e]] at hx
        exact h hx
  simp only [hnone]

/-- Claim C2 is false as stated: on a path without the `baselines` anchor,
configuration resolution fails — but with a `ValueError`, which is *not* a
`LookupError`-class exception in Python's hierarchy. -/
theorem claim_C2_counterexample :
    strip_up_to "/mt/foo/rl/tb/e.tfevents" "baselines" = .error .valueError ∧
    sacred_config_path "/mt/foo/rl/tb/e.tfevents" = .error .valueError ∧
    is_lookup_error .valueError = false := by
  refine ⟨rfl, rfl, rfl⟩

/-- Claim C2 amended: for every event-log path whose segment sequence lacks
the `baselines` anchor, configuration resolution fails with a `ValueError`
(a class outside `LookupError`), and that exception propagates through
`find_best`, aborting the whole run rather than being skipped. -/
theorem claim_C2_amended (path : String) (h : "baselines" ∉ split_path path) :
    (strip_up_to path "baselines" = .error .valueError ∧
     is_lookup_error .valueError = false) ∧
    (∀ (fs : String → Option RunConfig) (w : Int) (pre post : List LogData)
       (L : LogData) (st : FoldState), L.path = path →
       pre.foldlM (process_log fs w) (⟨[], []⟩ : FoldState) = .ok st →
       find_best fs w (pre ++ L :: post) = .error .valueError) := by
  have hstrip : strip_up_to path "baselines" = .error .valueError :=
    strip_up_to_error_of_not_mem path "baselines" h (by decide)
  refine ⟨⟨hstrip, rfl⟩, ?_⟩
  intro fs w pre post L st hL hpre
  have hproc : ∀ st0 : FoldState, process_log fs w st0 L = .error .valueError := by
    intro st0
    unfold process_log log_key get_sacred_config sacred_config_path
    rw [hL, hstrip]
    rfl
  unfold find_best find_best_state
  rw [List.foldlM_append, hpre, except_bind_ok, List.foldlM_cons, hproc st]
  rfl

/-- Witness for the amended C2: a one-log corpus whose path lacks the
anchor aborts the whole run with a `ValueError`. -/
theorem claim_C2_witness :
    find_best (fun _ => none) 50 [⟨"/x/rl/tb/e.tfevents", []⟩] =
      .error .valueError :=
  (claim_C2_amended "/x/rl/tb/e.tfevents" (by decide)).2 (fun _ => none) 50
    [] [] ⟨"/x/rl/tb/e.tfevents", []⟩ ⟨[], []⟩ rfl rfl

/-! ### Claim C9: output-path resolution in the driver -/

/-- Claim C9: with one logdir and no `--output_path`, the output goes to
`<logdir>/highest_win_policies_and_rates.json`; with more than one logdir
and no `--output_path`, the run aborts with a `ValueError` before any
directory scan (the result is the same error for *every* corpus and config
filesystem). -/
theorem claim_C9 :
    (∀ d : String, resolve_output_path none [d] =
        .ok (py_path_join [d, default_output_name])) ∧
    (∀ d : String, d ≠ "" → d.data.getLast? ≠ some (Char.ofNat 47) →
        py_path_join [d, default_output_name] =
          d ++ "/" ++ default_output_name) ∧
    (∀ logdirs : List String, 1 < logdirs.length →
        ∀ (fs : String → Option RunConfig) (w : Int) (corpus : List LogData),
          main_model fs none logdirs w corpus = .error .valueError) := by
  refine ⟨?_, ?_, ?_⟩
  · intro d
    unfold resolve_output_path
    rw [if_neg (by simp)]
  · intro d hne hsl
    show join2 d default_output_name = d ++ "/" ++ default_output_name
    unfold join2
    rw [if_neg (by decide), if_neg ?_]
    rintro (h1 | h2)
    · exact hne h1
    · exact hsl h2
  · intro logdirs hlen fs w corpus
    unfold main_model resolve_output_path
    rw [if_pos hlen]
    rfl

/-- Witness for C9 at concrete argument vectors. -/
theorem claim_C9_witness :
    resolve_output_path none ["/data/mt"] =
      .ok (py_path_join ["/data/mt", default_output_name]) ∧
    py_path_join ["/data/mt", default_output_name] =
      "/data/mt" ++ "/" ++ default_output_name ∧
    main_model (fun _ => none) none ["a", "b"] 50 [] = .error .valueError := by
  refine ⟨claim_C9.1 "/data/mt", ?_, ?_⟩
  · exact claim_C9.2.1 "/data/mt" (by decide) (by decide)
  · exact claim_C9.2.2 ["a", "b"] (by decide) (fun _ => none) 50 []

/-! ### Lemmas about the `find_best` fold -/

theorem dd_get_snd (d : List (AggKey × ℚ)) (k : AggKey) :
    (dd_get d k).2 = (lookupA d k).getD 0 := by
  unfold dd_get
  cases h : lookupA d k <;> simp [h]

theorem lookupA_dd_get_fst (d : List (AggKey × ℚ)) (k r : AggKey) :
    lookupA (dd_get d k).1 r =
      if r = k then some ((lookupA d k).getD 0) else lookupA d r := by
  unfold dd_get
  cases h : lookupA d k with
  | some v =>
    by_cases hr : r = k
    · subst hr
      simp [h]
    · simp [h, hr]
  | none =>
    rw [lookupA_append]
    by_cases hr : r = k
    · subst hr
      simp [h, lookupA]
    · cases hd : lookupA d r <;> simp [hd, lookupA, hr]

/-- Unfolding of one loop iteration when the log's win rate is NaN. -/
theorem process_log_none (fs : String → Option RunConfig) (w : Int)
    (st : FoldState) (L : LogData) (k : AggKey)
    (hk : log_key fs L = .ok k) (hm : log_winrate fs w L = .ok none) :
    process_log fs w st L =
      .ok ⟨st.best_policy, (dd_get st.best_winrate k).1⟩ := by
  unfold process_log
  rw [hk, except_bind_ok, hm, except_bind_ok]

/-- Unfolding of one loop iteration when the log's win rate is defined. -/
theorem process_log_some (fs : String → Option RunConfig) (w : Int)
    (st : FoldState) (L : LogData) (k : AggKey) (q : ℚ)
    (hk : log_key fs L = .ok k) (hm : log_winrate fs w L = .ok (some q)) :
    process_log fs w st L =
      (if (dd_get st.best_winrate k).2 < q then
        (get_final_model_path L.path) >>= fun mp =>
          .ok ⟨insertA st.best_policy k mp,
               insertA (dd_get st.best_winrate k).1 k q⟩
      else .ok ⟨st.best_policy, (dd_get st.best_winrate k).1⟩) := by
  unfold process_log
  rw [hk, except_bind_ok, hm, except_bind_ok]

/-- One fold step never decreases any stored win rate. -/
theorem process_log_mono (fs : String → Option RunConfig) (w : Int)
    (st st' : FoldState) (L : LogData)
    (hp : process_log fs w st L = .ok st') (r : AggKey) :
    stored_winrate st r ≤ stored_winrate st' r := by
  have hfst : st'.best_winrate = (dd_get st.best_winrate r).1 ∨
      st'.best_winrate = st.best_winrate ∨
      (∃ k q, stored_winrate st k < q ∧
        st'.best_winrate = insertA (dd_get st.best_winrate k).1 k q) ∨
      (∃ k, st'.best_winrate = (dd_get st.best_winrate k).1) := by
    cases hk : log_key fs L with
    | error e =>
      unfold process_log at hp
      rw [hk] at hp
      simp at hp
    | ok k =>
      cases hm : log_winrate fs w L with
      | error e =>
        unfold process_log at hp
        rw [hk, except_bind_ok, hm] at hp
        simp at hp
      | ok m =>
        cases m with
        | none =>
          rw [process_log_none fs w st L k hk hm] at hp
          cases hp
          exact Or.inr (Or.inr (Or.inr ⟨k, rfl⟩))
        | some q =>
          rw [process_log_some fs w st L k q hk hm] at hp
          by_cases hlt : (dd_get st.best_winrate k).2 < q
          · rw [if_pos hlt] at hp
            cases hmp : get_final_model_path L.path with
            | error e => rw [hmp] at hp; simp at hp
            | ok mp =>
              rw [hmp, except_bind_ok] at hp
              cases hp
              refine Or.inr (Or.inr (Or.inl ⟨k, q, ?_, rfl⟩))
              rwa [dd_get_snd] at hlt
          · rw [if_neg hlt] at hp
            cases hp
            exact Or.inr (Or.inr (Or.inr ⟨k, rfl⟩))
  have hdd : ∀ k, stored_winrate st r ≤
      ((lookupA (dd_get st.best_winrate k).1 r).getD 0) := by
    intro k
    rw [lookupA_dd_get_fst]
    by_cases hr : r = k
    · subst hr
      simp [stored_winrate]
    · simp [hr, stored_winrate]
  rcases hfst with h | h | ⟨k, q, hlt, h⟩ | ⟨k, h⟩
  · unfold stored_winrate
    rw [h]
    exact hdd r
  · unfold stored_winrate
    rw [h]
  · unfold stored_winrate
    rw [h, lookupA_insertA]
    by_cases hr : r = k
    · subst hr
      simp only [if_pos rfl, Option.getD_some]
      exact le_of_lt hlt
    · rw [if_neg hr]
      exact hdd k
  · unfold stored_winrate
    rw [h]
    exact hdd k

/-- Claim C6: the fold replaces the stored best record for the processed
key exactly when the new win rate strictly exceeds the currently stored
value (ties keep the earlier record), and consequently the stored win rate
for any key never decreases as more inputs are folded. -/
theorem claim_C6 :
    (∀ (fs : String → Option RunConfig) (w : Int) (st st' : FoldState)
       (L : LogData) (k : AggKey) (m : Option ℚ),
       process_log fs w st L = .ok st' → log_key fs L = .ok k →
       log_winrate fs w L = .ok m →
       (py_gt m (stored_winrate st k) = true →
         ∃ q mp, m = some q ∧ get_final_model_path L.path = .ok mp ∧
           lookupA st'.best_policy k = some mp ∧ stored_winrate st' k = q) ∧
       (py_gt m (stored_winrate st k) = false →
         lookupA st'.best_policy k = lookupA st.best_policy k ∧
           stored_winrate st' k = stored_winrate st k)) ∧
    (∀ (fs : String → Option RunConfig) (w : Int) (logs : List LogData)
       (st st' : FoldState) (k : AggKey),
       logs.foldlM (process_log fs w) st = .ok st' →
       stored_winrate st k ≤ stored_winrate st' k) := by
  constructor
  · intro fs w st st' L k m hp hk hm
    have hsame : st' = ⟨st.best_policy, (dd_get st.best_winrate k).1⟩ →
        lookupA st'.best_policy k = lookupA st.best_policy k ∧
          stored_winrate st' k = stored_winrate st k := by
      intro h₀
      subst h₀
      refine ⟨rfl, ?_⟩
      unfold stored_winrate
      simp [lookupA_dd_get_fst]
    cases m with
    | none =>
      rw [process_log_none fs w st L k hk hm] at hp
      cases hp
      exact ⟨fun habs => by simp [py_gt] at habs, fun _ => hsame rfl⟩
    | some q =>
      rw [process_log_some fs w st L k q hk hm, dd_get_snd] at hp
      have hgt : py_gt (some q) (stored_winrate st k) =
          decide (stored_winrate st k < q) := rfl
      by_cases hlt : stored_winrate st k < q
      · rw [if_pos (by rwa [stored_winrate] at hlt)] at hp
        constructor
        · intro _
          cases hmp : get_final_model_path L.path with
          | error e => rw [hmp] at hp; simp at hp
          | ok mp =>
            rw [hmp, except_bind_ok] at hp
            cases hp
            refine ⟨q, mp, rfl, rfl, ?_, ?_⟩
            · simp [lookupA_insertA]
            · unfold stored_winrate
              simp [lookupA_insertA]
        · intro hfalse
          rw [hgt, decide_eq_false_iff_not] at hfalse
          exact absurd hlt hfalse
      · rw [if_neg (by rwa [stored_winrate] at hlt)] at hp
        cases hp
        constructor
        · intro htrue
          rw [hgt, decide_eq_true_eq] at htrue
          exact absurd htrue hlt
        · intro _
          exact hsame rfl
  · intro fs w logs
    induction logs with
    | nil =>
      intro st st' k h
      simp only [List.foldlM_nil] at h
      cases h
      exact le_refl _
    | cons L rest ih =>
      intro st st' k h
      rw [List.foldlM_cons] at h
      cases hL : process_log fs w st L with
      | error e => rw [hL] at h; simp at h
      | ok st1 =>
        rw [hL, except_bind_ok] at h
        exact le_trans (process_log_mono fs w st st1 L hL k) (ih st1 st' k h)

/-- Witness for C6: a NaN win rate fails the comparison, keeps the policy
record unchanged, and the stored win rate does not decrease over the fold. -/
theorem claim_C6_witness :
    (lookupA (FoldState.mk [] [(c6_key, 0)]).best_policy c6_key =
       lookupA (FoldState.mk [] []).best_policy c6_key ∧
     stored_winrate ⟨[], [(c6_key, 0)]⟩ c6_key =
       stored_winrate ⟨[], []⟩ c6_key) ∧
    stored_winrate ⟨[], []⟩ c6_key ≤
      stored_winrate ⟨[], [(c6_key, 0)]⟩ c6_key := by
  constructor
  · exact (claim_C6.1 c6_fs 50 ⟨[], []⟩ ⟨[], [(c6_key, 0)]⟩ c6_log c6_key none
      rfl rfl rfl).2 rfl
  · exact claim_C6.2 c6_fs 50 [c6_log] ⟨[], []⟩ ⟨[], [(c6_key, 0)]⟩ c6_key rfl

/-! ### Key-uniqueness and `unstack` lookups -/

theorem keysOf_insertA {K V : Type} [DecidableEq K] (d : List (K × V)) (q : K)
    (v : V) :
    keysOf (insertA d q v) =
      if (lookupA d q).isSome then keysOf d else keysOf d ++ [q] := by
  induction d with
  | nil => simp [insertA, lookupA, keysOf]
  | cons kv rest ih =>
    obtain ⟨k, w⟩ := kv
    by_cases hq : q = k
    · subst hq
      simp [insertA, lookupA, keysOf]
    · simp only [insertA, if_neg hq, keysOf, List.map_cons, lookupA,
        if_neg hq] at ih ⊢
      rw [ih]
      by_cases hs : (lookupA rest q).isSome <;> simp [hs]

theorem nodup_insertA {K V : Type} [DecidableEq K] {d : List (K × V)}
    (hd : (keysOf d).Nodup) (q : K) (v : V) :
    (keysOf (insertA d q v)).Nodup := by
  rw [keysOf_insertA]
  cases hs : (lookupA d q).isSome
  · simp only [Bool.false_eq_true, if_false]
    have hq : q ∉ keysOf d := by
      rw [← lookupA_eq_none_iff]
      cases h : lookupA d q
      · rfl
      · rw [h] at hs; simp at hs
    simp [List.nodup_append, hd, hq]
  · simpa using hd

theorem nodup_dd_get (d : List (AggKey × ℚ)) (hd : (keysOf d).Nodup)
    (k : AggKey) : (keysOf (dd_get d k).1).Nodup := by
  unfold dd_get
  cases h : lookupA d k with
  | some v => simpa using hd
  | none =>
    have hk : k ∉ keysOf d := (lookupA_eq_none_iff d k).mp h
    simp [keysOf, List.nodup_append] at hd hk ⊢
    exact ⟨hd, hk⟩

@[simp] theorem option_bind_some {α β : Type} (a : α) (f : α → Option β) :
    (some a >>= f) = f a := rfl

@[simp] theorem option_bind_none {α β : Type} (f : α → Option β) :
    ((none : Option α) >>= f) = none := rfl

/-- Leaf lookup after one `setdefault`-nested insertion. -/
theorem lookup3_setdef {V : Type} (res : List (String × List (Int × List (String × V))))
    (e : String) (i : Int) (p : String) (v : V) (E : String) (I : Int) (P : String) :
    lookup3 (updA res e []
        (fun m2 => updA m2 i [] (fun m3 => insertA m3 p v))) E I P =
      if E = e ∧ I = i ∧ P = p then some v else lookup3 res E I P := by
  by_cases hE : E = e
  · subst hE
    unfold lookup3
    rw [lookupA_updA, if_pos rfl]
    by_cases hI : I = i
    · subst hI
      rw [option_bind_some, lookupA_updA, if_pos rfl, option_bind_some,
          lookupA_insertA]
      by_cases hP : P = p
      · subst hP
        simp
      · rw [if_neg hP, if_neg (by simp [hP])]
        cases h2 : lookupA res E with
        | none => simp [lookupA]
        | some m2 =>
          simp only [Option.getD_some, option_bind_some]
          cases h3 : lookupA m2 I <;> simp [lookupA]
    · rw [option_bind_some, lookupA_updA, if_neg hI,
          if_neg (by simp [hI])]
      cases h2 : lookupA res E <;> simp [lookupA]
  · unfold lookup3
    rw [lookupA_updA, if_neg hE, if_neg (by simp [hE])]

/-- Leaf lookup after folding `setdefault`-insertions over an item list:
the last write for a key wins, else the initial accumulator decides. -/
theorem lookup3_foldl {V : Type} (items : List (AggKey × V))
    (res : List (String × List (Int × List (String × V))))
    (E : String) (I : Int) (P : String) :
    lookup3 (items.foldl
        (fun res kv =>
          updA res kv.1.1 []
            (fun m2 => updA m2 kv.1.2.1 []
              (fun m3 => insertA m3 kv.1.2.2 kv.2))) res) E I P =
      (match lookupA items.reverse (E, I, P) with
       | some v => some v
       | none => lookup3 res E I P) := by
  induction items generalizing res with
  | nil => simp [lookupA]
  | cons kv rest ih =>
    obtain ⟨⟨e, i, p⟩, v⟩ := kv
    rw [List.foldl_cons, ih, List.reverse_cons, lookupA_append]
    cases hr : lookupA rest.reverse (E, I, P) with
    | some w => rfl
    | none =>
      simp only []
      rw [lookup3_setdef]
      by_cases hk : (E, I, P) = ((e, i, p) : AggKey)
      · rw [if_pos (by
          obtain ⟨h1, h2, h3⟩ := Prod.mk.injEq .. ▸ hk
          exact ⟨h1, by cases hk; exact rfl, by cases hk; exact rfl⟩)]
        rw [show lookupA [((e, i, p), v)] (E, I, P) = some v from by
          cases hk; simp [lookupA]]
      · rw [if_neg (by
          intro ⟨h1, h2, h3⟩
          exact hk (by subst h1; subst h2; subst h3; rfl))]
        rw [show lookupA [((e, i, p), v)] (E, I, P) = none from by
          simp [lookupA]
          intro h1 h2 h3
          exact absurd (by subst h1; subst h2; subst h3; rfl) hk]

/-- Under unique keys, a leaf of `unstack d` is exactly the binding of `d`. -/
theorem lookup3_unstack {V : Type} (d : List (AggKey × V))
    (hd : (keysOf d).Nodup) (E : String) (I : Int) (P : String) :
    lookup3 (unstack d) E I P = lookupA d (E, I, P) := by
  unfold unstack
  rw [lookup3_foldl]
  have hperm : (d.insertionSort (fun a b => key_le_b a.1 b.1 = true)).reverse.Perm d :=
    ((d.insertionSort (fun a b => key_le_b a.1 b.1 = true)).reverse_perm).trans
      (List.perm_insertionSort _ d)
  have hl : lookupA (d.insertionSort (fun a b => key_le_b a.1 b.1 = true)).reverse
      (E, I, P) = lookupA d (E, I, P) := by
    refine lookupA_perm hperm ?_ (E, I, P)
    exact (hperm.map Prod.fst).nodup_iff.mpr hd
  rw [hl]
  cases h : lookupA d (E, I, P) with
  | some v => rfl
  | none => simp [lookup3, lookupA]

theorem bestInv_empty : BestInv ⟨[], []⟩ := by
  refine ⟨List.nodup_nil, List.nodup_nil, ?_⟩
  intro k
  simp [lookupA]

theorem bestInv_dd_step (st : FoldState) (k : AggKey) (hinv : BestInv st) :
    BestInv ⟨st.best_policy, (dd_get st.best_winrate k).1⟩ := by
  obtain ⟨hnp, hnw, hkk⟩ := hinv
  refine ⟨hnp, nodup_dd_get _ hnw k, ?_⟩
  intro r
  rw [lookupA_dd_get_fst]
  by_cases hr : r = k
  · subst hr
    rw [if_pos rfl]
    cases hw : lookupA st.best_winrate r with
    | some q0 =>
      refine ⟨fun _ => rfl, ?_⟩
      intro q hq
      rw [Option.getD_some] at hq
      injection hq with hq'
      subst hq'
      exact (hkk r).2 _ hw
    | none =>
      refine ⟨fun _ => rfl, ?_⟩
      intro q hq
      rw [Option.getD_none] at hq
      cases hq
      refine ⟨le_refl 0, ?_⟩
      constructor
      · intro hps
        have := (hkk r).1 hps
        rw [hw] at this
        simp at this
      · intro habs
        exact absurd habs (lt_irrefl 0)
  · rw [if_neg hr]
    exact hkk r

theorem bestInv_process_log (fs : String → Option RunConfig) (w : Int)
    (st st' : FoldState) (L : LogData)
    (hp : process_log fs w st L = .ok st') (hinv : BestInv st) : BestInv st' := by
  cases hk : log_key fs L with
  | error e =>
    unfold process_log at hp
    rw [hk] at hp
    simp at hp
  | ok k =>
    cases hm : log_winrate fs w L with
    | error e =>
      unfold process_log at hp
      rw [hk, except_bind_ok, hm] at hp
      simp at hp
    | ok m =>
      cases m with
      | none =>
        rw [process_log_none fs w st L k hk hm] at hp
        cases hp
        exact bestInv_dd_step st k hinv
      | some q =>
        rw [process_log_some fs w st L k q hk hm] at hp
        by_cases hlt : (dd_get st.best_winrate k).2 < q
        · rw [if_pos hlt] at hp
          cases hmp : get_final_model_path L.path with
          | error e => rw [hmp] at hp; simp at hp
          | ok mp =>
            rw [hmp, except_bind_ok] at hp
            cases hp
            obtain ⟨hnp, hnw, hkk⟩ := bestInv_dd_step st k hinv
            have hq0 : 0 < q := by
              rw [dd_get_snd] at hlt
              cases hw : lookupA st.best_winrate k with
              | none => rw [hw] at hlt; simpa using hlt
              | some q0 =>
                rw [hw] at hlt
                simp only [Option.getD_some] at hlt
                exact lt_of_le_of_lt ((hinv.2.2 k).2 q0 hw).1 hlt
            refine ⟨nodup_insertA hnp k mp, nodup_insertA hnw k q, ?_⟩
            intro r
            rw [lookupA_insertA, lookupA_insertA]
            by_cases hr : r = k
            · rw [if_pos hr, if_pos hr]
              refine ⟨fun _ => rfl, ?_⟩
              intro q' hq'
              cases hq'
              simpa using ⟨le_of_lt hq0, hq0⟩
            · rw [if_neg hr, if_neg hr]
              exact hkk r
        · rw [if_neg hlt] at hp
          cases hp
          exact bestInv_dd_step st k hinv

theorem bestInv_find_best_state (fs : String → Option RunConfig) (w : Int)
    (logs : List LogData) (st : FoldState)
    (h : find_best_state fs w logs = .ok st) : BestInv st := by
  unfold find_best_state at h
  suffices haux : ∀ (l : List LogData) (s0 s1 : FoldState), BestInv s0 →
      l.foldlM (process_log fs w) s0 = .ok s1 → BestInv s1 by
    exact haux logs ⟨[], []⟩ st bestInv_empty h
  intro l
  induction l with
  | nil =>
    intro s0 s1 h0 h1
    simp only [List.foldlM_nil] at h1
    cases h1
    exact h0
  | cons L rest ih =>
    intro s0 s1 h0 h1
    rw [List.foldlM_cons] at h1
    cases hL : process_log fs w s0 L with
    | error e => rw [hL] at h1; simp at h1
    | ok sm =>
      rw [hL, except_bind_ok] at h1
      exact ih sm s1 (bestInv_process_log fs w s0 sm L hL h0) h1

/-- Claim C1 is false as stated: after `find_best` over this one-log
corpus, the persisted winrates structure has a leaf for
`("Env1", 1, "zoo/1")` (value `0.0`) while the policies structure has no
leaf for that triple. -/
theorem claim_C1_counterexample :
    (find_best c1_fs 50 [c1_log]).map
      (fun doc => (lookup3 doc.policies "Env1" 1 "zoo/1",
                   lookup3 doc.winrates "Env1" 1 "zoo/1")) =
      .ok (none, some 0) := by
  rfl

/-- Claim C1 amended: every policies leaf has a matching winrates leaf, but
not conversely — a winrates leaf with value `q` has a matching policies leaf
exactly when `q` is strictly positive; keys whose logs never strictly beat
the `0.0` default (including NaN win rates) appear only in winrates. -/
theorem claim_C1_amended (fs : String → Option RunConfig) (w : Int)
    (logs : List LogData) (doc : ResultDocument)
    (h : find_best fs w logs = .ok doc) (E : String) (I : Int) (P : String) :
    ((lookup3 doc.policies E I P).isSome →
      (lookup3 doc.winrates E I P).isSome) ∧
    (∀ q, lookup3 doc.winrates E I P = some q →
      0 ≤ q ∧ ((lookup3 doc.policies E I P).isSome ↔ 0 < q)) := by
  unfold find_best at h
  cases hst : find_best_state fs w logs with
  | error e => rw [hst] at h; simp at h
  | ok st =>
    rw [hst, except_bind_ok] at h
    cases h
    obtain ⟨hnp, hnw, hkk⟩ := bestInv_find_best_state fs w logs st hst
    show ((lookup3 (unstack st.best_policy) E I P).isSome →
        (lookup3 (unstack st.best_winrate) E I P).isSome) ∧
      (∀ q, lookup3 (unstack st.best_winrate) E I P = some q →
        0 ≤ q ∧ ((lookup3 (unstack st.best_policy) E I P).isSome ↔ 0 < q))
    rw [lookup3_unstack st.best_policy hnp, lookup3_unstack st.best_winrate hnw]
    exact hkk (E, I, P)

/-- Witness for the amended C1 at the concrete one-log corpus. -/
theorem claim_C1_witness :
    (0 : ℚ) ≤ 0 ∧
    ((lookup3 (ResultDocument.mk []
        [("Env1", [(1, [("zoo/1", 0)])])]).policies "Env1" 1 "zoo/1").isSome ↔
      (0 : ℚ) < 0) :=
  (claim_C1_amended c1_fs 50 [c1_log]
    ⟨[], [("Env1", [(1, [("zoo/1", 0)])])]⟩ rfl "Env1" 1 "zoo/1").2 0 rfl

/-! ### Claim C8: discovery filter and checkpoint pruning -/

theorem mem_event_files_list (l : List (String × FSTree)) (root : List String)
    (pn : List String × String) :
    pn ∈ event_files_list root l ↔
      ∃ s d, (s, d) ∈ l ∧ s ≠ "checkpoint" ∧ pn ∈ event_files (root ++ [s]) d := by
  induction l with
  | nil =>
    rw [event_files_list]
    simp
  | cons sd rest ih =>
    obtain ⟨s, d⟩ := sd
    rw [event_files_list, List.mem_append, ih]
    constructor
    · rintro (h | ⟨s', d', hm, hcp, hr⟩)
      · by_cases hcp : s = "checkpoint"
        · rw [if_pos hcp] at h
          simp at h
        · rw [if_neg hcp] at h
          exact ⟨s, d, List.mem_cons_self .., hcp, h⟩
      · exact ⟨s', d', List.mem_cons_of_mem _ hm, hcp, hr⟩
    · rintro ⟨s', d', hm, hcp, hr⟩
      rcases List.mem_cons.mp hm with h | h
      · cases h
        left
        rw [if_neg hcp]
        exact hr
      · right
        exact ⟨s', d', h, hcp, hr⟩

theorem has_file_at_list_iff (l : List (String × FSTree)) (s : String)
    (rels : List String) (n : String) :
    has_file_at_list l s rels n = true ↔
      ∃ d, (s, d) ∈ l ∧ has_file_at d rels n = true := by
  induction l with
  | nil =>
    rw [has_file_at_list]
    simp
  | cons sd rest ih =>
    obtain ⟨s', d'⟩ := sd
    rw [has_file_at_list, Bool.or_eq_true, Bool.and_eq_true, ih]
    constructor
    · rintro (⟨hs, hf⟩ | ⟨d, hm, hf⟩)
      · exact ⟨d', by rw [show s' = s from by simpa using hs]; exact List.mem_cons_self .., hf⟩
      · exact ⟨d, List.mem_cons_of_mem _ hm, hf⟩
    · rintro ⟨d, hm, hf⟩
      rcases List.mem_cons.mp hm with h | h
      · obtain ⟨h1, h2⟩ := Prod.mk.injEq .. ▸ h
        left
        exact ⟨by simp [h1.symm], h2 ▸ hf⟩
      · right
        exact ⟨d, h, hf⟩

theorem mem_event_files_iff_aux : ∀ (N : Nat) (t : FSTree), sizeOf t ≤ N →
    ∀ (root : List String) (pn : List String × String),
      pn ∈ event_files root t ↔
        ∃ rels, pn.1 = root ++ rels ∧ "checkpoint" ∉ rels ∧
          has_file_at t rels pn.2 = true ∧ last_two pn.1 = ["rl", "tb"] ∧
          str_contains pn.2 "tfevents" = true := by
  intro N
  induction N with
  | zero =>
    intro t ht
    cases t with
    | dir files subdirs =>
      simp [FSTree.dir.sizeOf_spec] at ht
  | succ N ih =>
    intro t ht root pn
    cases t with
    | dir files subdirs =>
      have hsub : ∀ s d, (s, d) ∈ subdirs → sizeOf d ≤ N := by
        intro s d hm
        have h1 := List.sizeOf_lt_of_mem hm
        have h2 : sizeOf (FSTree.dir files subdirs) =
            1 + sizeOf files + sizeOf subdirs := by
          simp [FSTree.dir.sizeOf_spec]
        simp at h1
        omega
      rw [event_files, List.mem_append, mem_event_files_list]
      constructor
      · rintro (h | ⟨s, d, hm, hcp, hr⟩)
        · by_cases htb : last_two root = ["rl", "tb"]
          · rw [if_pos htb] at h
            obtain ⟨nm, hnm, hpn⟩ := List.mem_map.mp h
            obtain ⟨hmem, hmark⟩ := List.mem_filter.mp hnm
            refine ⟨[], ?_, by simp, ?_, ?_, ?_⟩
            · rw [← hpn]; simp
            · rw [← hpn]
              rw [has_file_at]
              simpa using hmem
            · rw [← hpn]
              simpa using htb
            · rw [← hpn]
              simpa using hmark
          · rw [if_neg htb] at h
            simp at h
        · obtain ⟨rels', h1, h2, h3, h4, h5⟩ :=
            (ih d (hsub s d hm) (root ++ [s]) pn).mp hr
          refine ⟨s :: rels', ?_, ?_, ?_, h4, h5⟩
          · rw [h1, List.append_assoc]
            rfl
          · intro hmem
            rcases List.mem_cons.mp hmem with h | h
            · exact hcp h.symm
            · exact h2 h
          · rw [has_file_at]
            exact (has_file_at_list_iff subdirs s rels' pn.2).mpr ⟨d, hm, h3⟩
      · rintro ⟨rels, h1, h2, h3, h4, h5⟩
        cases rels with
        | nil =>
          left
          rw [List.append_nil] at h1
          rw [h1] at h4
          rw [if_pos h4]
          rw [has_file_at] at h3
          refine List.mem_map.mpr ⟨pn.2, List.mem_filter.mpr ⟨by simpa using h3, h5⟩, ?_⟩
          rw [← h1]
        | cons s rels' =>
          right
          rw [has_file_at] at h3
          obtain ⟨d, hm, hf⟩ := (has_file_at_list_iff subdirs s rels' pn.2).mp h3
          have hcp : s ≠ "checkpoint" := fun h => h2 (h ▸ List.mem_cons_self ..)
          refine ⟨s, d, hm, hcp, ?_⟩
          refine (ih d (hsub s d hm) (root ++ [s]) pn).mpr
            ⟨rels', ?_, fun h => h2 (List.mem_cons_of_mem _ h), hf, h4, h5⟩
          rw [h1, List.append_assoc]
          rfl

/-- Claim C8 is false as stated: this file's directory path ends in
`rl/tb` and its name contains the event-log marker, yet it is not yielded,
because it lies under a pruned `checkpoint` directory — so yielding is not
equivalent to the suffix-and-marker condition alone. -/
theorem claim_C8_counterexample :
    last_two ["logs", "checkpoint", "rl", "tb"] = ["rl", "tb"] ∧
    str_contains "ev.tfevents.1" "tfevents" = true ∧
    has_file_at c8_tree ["checkpoint", "rl", "tb"] "ev.tfevents.1" = true ∧
    (["logs", "checkpoint", "rl", "tb"], "ev.tfevents.1") ∉
      event_files ["logs"] c8_tree := by
  refine ⟨rfl, rfl, rfl, ?_⟩
  decide

/-- Claim C8 amended: `event_files` yields a `(directory, file)` pair iff
the file exists in the tree at a relative directory chain containing no
`checkpoint` segment, the directory's segment sequence ends with
`['rl', 'tb']`, and the file name contains `tfevents`; in particular no
file under a pruned `checkpoint` directory is ever yielded. -/
theorem claim_C8_amended (t : FSTree) (root p : List String) (n : String) :
    (p, n) ∈ event_files root t ↔
      ∃ rels, p = root ++ rels ∧ "checkpoint" ∉ rels ∧
        has_file_at t rels n = true ∧ last_two p = ["rl", "tb"] ∧
        str_contains n "tfevents" = true :=
  mem_event_files_iff_aux (sizeOf t) t (le_refl _) root (p, n)

/-- Witness for the amended C8: both directions at concrete trees. -/
theorem claim_C8_witness :
    (["logs", "rl", "tb"], "a.tfevents") ∈
      event_files ["logs"] c8_good_tree ∧
    (["logs", "rl", "tb"], "notes.txt") ∉
      event_files ["logs"] c8_good_tree := by
  constructor
  · exact (claim_C8_amended c8_good_tree ["logs"] ["logs", "rl", "tb"]
      "a.tfevents").mpr ⟨["rl", "tb"], rfl, by decide, rfl, rfl, rfl⟩
  · intro hmem
    obtain ⟨rels, h1, h2, h3, h4, h5⟩ :=
      (claim_C8_amended c8_good_tree ["logs"] ["logs", "rl", "tb"]
        "notes.txt").mp hmem
    exact absurd h5 (by decide)

/-! ### Claim C7: order independence for distinct win rates -/

/-- Claim C7: two logs with the same aggregation key and distinct
(non-negative) win rates produce, in either discovery order, a best record
holding the strictly larger win rate and the model path of the log that
achieved it. -/
theorem claim_C7 (fs : String → Option RunConfig) (w : Int) (L1 L2 : LogData)
    (k : AggKey) (q1 q2 : ℚ) (p1 p2 : String)
    (hk1 : log_key fs L1 = .ok k) (hk2 : log_key fs L2 = .ok k)
    (hm1 : log_winrate fs w L1 = .ok (some q1))
    (hm2 : log_winrate fs w L2 = .ok (some q2))
    (hp1 : get_final_model_path L1.path = .ok p1)
    (hp2 : get_final_model_path L2.path = .ok p2)
    (h1 : 0 ≤ q1) (h2 : 0 ≤ q2) (hne : q1 ≠ q2) :
    ∃ st st', find_best_state fs w [L1, L2] = .ok st ∧
      find_best_state fs w [L2, L1] = .ok st' ∧
      lookupA st.best_policy k = some (if q1 < q2 then p2 else p1) ∧
      lookupA st'.best_policy k = some (if q1 < q2 then p2 else p1) ∧
      lookupA st.best_winrate k = some (max q1 q2) ∧
      lookupA st'.best_winrate k = some (max q1 q2) := by
  have step1 : ∀ (L : LogData) (q : ℚ) (p : String),
      log_key fs L = .ok k → log_winrate fs w L = .ok (some q) →
      get_final_model_path L.path = .ok p → 0 ≤ q →
      process_log fs w ⟨[], []⟩ L =
        .ok ⟨if 0 < q then [(k, p)] else [], [(k, q)]⟩ := by
    intro L q p hk hm hp hq
    rw [process_log_some fs w ⟨[], []⟩ L k q hk hm,
        show dd_get (FoldState.mk [] []).best_winrate k = ([(k, 0)], 0) from rfl]
    by_cases h : 0 < q
    · rw [if_pos h, hp, except_bind_ok, if_pos h]
      simp [insertA]
    · rw [if_neg h, if_neg h]
      have hq0 : q = 0 := le_antisymm (not_lt.mp h) hq
      rw [hq0]
  have step2 : ∀ (L : LogData) (q : ℚ) (p : String)
      (bp : List (AggKey × String)) (qc : ℚ),
      log_key fs L = .ok k → log_winrate fs w L = .ok (some q) →
      get_final_model_path L.path = .ok p →
      process_log fs w ⟨bp, [(k, qc)]⟩ L =
        .ok (if qc < q then ⟨insertA bp k p, [(k, q)]⟩
             else ⟨bp, [(k, qc)]⟩) := by
    intro L q p bp qc hk hm hp
    rw [process_log_some fs w ⟨bp, [(k, qc)]⟩ L k q hk hm,
        show dd_get (FoldState.mk bp [(k, qc)]).best_winrate k =
          ([(k, qc)], qc) from by unfold dd_get; simp [lookupA]]
    by_cases h : qc < q
    · rw [if_pos h, hp, except_bind_ok, if_pos h]
      simp [insertA]
    · rw [if_neg h, if_neg h]
  have hins : ∀ (b : Prop) [Decidable b] (pa pb : String),
      insertA (if b then [(k, pa)] else []) k pb = [(k, pb)] := by
    intro b hb pa pb
    split <;> simp [insertA]
  rcases lt_or_gt_of_ne hne with hlt | hlt
  · -- q1 < q2 : in both orders the final record is L2's
    have hq2 : 0 < q2 := lt_of_le_of_lt h1 hlt
    refine ⟨⟨[(k, p2)], [(k, q2)]⟩, ⟨[(k, p2)], [(k, q2)]⟩, ?_, ?_, ?_, ?_, ?_, ?_⟩
    · unfold find_best_state
      rw [List.foldlM_cons, step1 L1 q1 p1 hk1 hm1 hp1 h1, except_bind_ok,
          List.foldlM_cons,
          step2 L2 q2 p2 (if 0 < q1 then [(k, p1)] else []) q1 hk2 hm2 hp2,
          if_pos hlt, hins (0 < q1) p1 p2, except_bind_ok, List.foldlM_nil]
      rfl
    · unfold find_best_state
      rw [List.foldlM_cons, step1 L2 q2 p2 hk2 hm2 hp2 h2, except_bind_ok,
          if_pos hq2, List.foldlM_cons,
          step2 L1 q1 p1 [(k, p2)] q2 hk1 hm1 hp1,
          if_neg (by exact not_lt_of_gt hlt), except_bind_ok, List.foldlM_nil]
      rfl
    · simp [lookupA, if_pos hlt]
    · simp [lookupA, if_pos hlt]
    · simp [lookupA, max_eq_right (le_of_lt hlt)]
    · simp [lookupA, max_eq_right (le_of_lt hlt)]
  · -- q2 < q1 : in both orders the final record is L1's
    have hq1 : 0 < q1 := lt_of_le_of_lt h2 hlt
    refine ⟨⟨[(k, p1)], [(k, q1)]⟩, ⟨[(k, p1)], [(k, q1)]⟩, ?_, ?_, ?_, ?_, ?_, ?_⟩
    · unfold find_best_state
      rw [List.foldlM_cons, step1 L1 q1 p1 hk1 hm1 hp1 h1, except_bind_ok,
          if_pos hq1, List.foldlM_cons,
          step2 L2 q2 p2 [(k, p1)] q1 hk2 hm2 hp2,
          if_neg (by exact not_lt_of_gt hlt), except_bind_ok, List.foldlM_nil]
      rfl
    · unfold find_best_state
      rw [List.foldlM_cons, step1 L2 q2 p2 hk2 hm2 hp2 h2, except_bind_ok,
          List.foldlM_cons,
          step2 L1 q1 p1 (if 0 < q2 then [(k, p2)] else []) q2 hk1 hm1 hp1,
          if_pos hlt, hins (0 < q2) p2 p1, except_bind_ok, List.foldlM_nil]
      rfl
    · simp [lookupA, if_neg (not_lt_of_gt hlt)]
    · simp [lookupA, if_neg (not_lt_of_gt hlt)]
    · simp [lookupA, max_eq_left (le_of_lt hlt)]
    · simp [lookupA, max_eq_left (le_of_lt hlt)]

/-- Witness for C7: the 0.62 / 0.71 scenario in both discovery orders. -/
theorem claim_C7_witness :
    ∃ st st', find_best_state c7_fs 50 [c7_logA, c7_logB] = .ok st ∧
      find_best_state c7_fs 50 [c7_logB, c7_logA] = .ok st' ∧
      lookupA st.best_policy ("Env1", 0, "zoo/3") =
        some (if c7_q1 < c7_q2 then "multi_train/b/baselines/e/final_model"
              else "multi_train/a/baselines/e/final_model") ∧
      lookupA st'.best_policy ("Env1", 0, "zoo/3") =
        some (if c7_q1 < c7_q2 then "multi_train/b/baselines/e/final_model"
              else "multi_train/a/baselines/e/final_model") ∧
      lookupA st.best_winrate ("Env1", 0, "zoo/3") = some (max c7_q1 c7_q2) ∧
      lookupA st'.best_winrate ("Env1", 0, "zoo/3") = some (max c7_q1 c7_q2) :=
  claim_C7 c7_fs 50 c7_logA c7_logB ("Env1", 0, "zoo/3") c7_q1 c7_q2
    "multi_train/a/baselines/e/final_model"
    "multi_train/b/baselines/e/final_model"
    rfl rfl rfl rfl rfl rfl
    (by norm_num [c7_q1]) (by norm_num [c7_q2]) (by norm_num [c7_q1, c7_q2])
